import Mathlib

/-!
Verification of the geodesic-survey app core (`src/App.jsx`) against its
natural-language specification.

The coordinate data and the pure numeric helpers (`calculateDistance`,
`calculatePolygonArea`, `calculatePerimeter`, the derived `totalArea`),
the extreme-point selection inside `exportCoordinates`, and the React
state transitions (point capture, restriction capture, toggles) are
modelled below.  JavaScript numbers are modelled by real numbers; the
imperative accumulation loops are modelled by `Finset.range` sums and
`List.foldl`.
-/

/-- A captured map point: `{ lat, lng, id }` as produced by map clicks
(`id` is the `Date.now()` tag used by `removePoint`). -/
structure Coordinate where
  lat : ℝ
  lng : ℝ
  id : ℕ := 0

instance : Inhabited Coordinate := ⟨⟨0, 0, 0⟩⟩

/-- `Math.atan2 y x`. -/
noncomputable def atan2 (y x : ℝ) : ℝ :=
  if 0 < x then Real.arctan (y / x)
  else if x < 0 ∧ 0 ≤ y then Real.arctan (y / x) + Real.pi
  else if x < 0 ∧ y < 0 then Real.arctan (y / x) - Real.pi
  else if x = 0 ∧ 0 < y then Real.pi / 2
  else if x = 0 ∧ y < 0 then -(Real.pi / 2)
  else 0

/-- Haversine distance in meters (`calculateDistance` in `App.jsx`). -/
noncomputable def calculateDistance (lat1 lon1 lat2 lon2 : ℝ) : ℝ :=
  let R : ℝ := 6371e3
  let φ₁ := lat1 * Real.pi / 180
  let φ₂ := lat2 * Real.pi / 180
  let Δφ := (lat2 - lat1) * Real.pi / 180
  let Δlon := (lon2 - lon1) * Real.pi / 180
  let a := Real.sin (Δφ / 2) * Real.sin (Δφ / 2) +
    Real.cos φ₁ * Real.cos φ₂ *
    Real.sin (Δlon / 2) * Real.sin (Δlon / 2)
  let c := 2 * atan2 (Real.sqrt a) (Real.sqrt (1 - a))
  R * c

/-- The summand `(x2 - x1) * (2 + sin y1 + sin y2)` accumulated by the
area loop of `calculatePolygonArea`, where `x = lng·π/180`, `y = lat·π/180`. -/
noncomputable def areaTerm (p₁ p₂ : Coordinate) : ℝ :=
  (p₂.lng * Real.pi / 180 - p₁.lng * Real.pi / 180) *
    (2 + Real.sin (p₁.lat * Real.pi / 180) + Real.sin (p₂.lat * Real.pi / 180))

/-- Spherical polygon area in square meters (`calculatePolygonArea` in
`App.jsx`): the loop over `i` pairs `points[i]` with
`points[(i+1) % points.length]`, then `area = |area * R * R / 2|`. -/
noncomputable def calculatePolygonArea (points : List Coordinate) : ℝ :=
  if points.length < 3 then 0
  else
    |(∑ i in Finset.range points.length,
        areaTerm (points.getD i default) (points.getD ((i + 1) % points.length) default))
      * 6371e3 * 6371e3 / 2|

/-- Perimeter in meters (`calculatePerimeter` in `App.jsx`): sums
`calculateDistance` over `i = 0 .. length-2`, and adds the closing edge
`last → first` when the ring has at least 3 points. -/
noncomputable def calculatePerimeter (points : List Coordinate) : ℝ :=
  if points.length < 2 then 0
  else
    (∑ i in Finset.range (points.length - 1),
      calculateDistance (points.getD i default).lat (points.getD i default).lng
        (points.getD (i + 1) default).lat (points.getD (i + 1) default).lng) +
    (if 3 ≤ points.length then
      calculateDistance (points.getD (points.length - 1) default).lat
        (points.getD (points.length - 1) default).lng
        (points.getD 0 default).lat (points.getD 0 default).lng
     else 0)

/-- `restrictions.reduce((acc, points) => acc + calculatePolygonArea(points), 0)`
from `App.jsx`. -/
noncomputable def restrictionArea (restrictions : List (List Coordinate)) : ℝ :=
  restrictions.foldl (fun acc points => acc + calculatePolygonArea points) 0

/-- `totalArea = Math.max(0, mainArea - restrictionArea)` from `App.jsx`. -/
noncomputable def totalArea (capturedPoints : List Coordinate)
    (restrictions : List (List Coordinate)) : ℝ :=
  max 0 (calculatePolygonArea capturedPoints - restrictionArea restrictions)

/-- Specification-side helper: the sum of `f` over consecutive vertex pairs
of a list (no closing edge). -/
noncomputable def consecSum (f : Coordinate → Coordinate → ℝ) : List Coordinate → ℝ
  | [] => 0
  | [_] => 0
  | a :: b :: t => f a b + consecSum f (b :: t)

/-- JavaScript `Array.prototype.reduce` with no initial value: `none` on an
empty array, otherwise a left fold started from the first element. -/
def reduce1 {α : Type} (f : α → α → α) : List α → Option α
  | [] => none
  | x :: xs => some (xs.foldl f x)

/-- `capturedPoints.reduce((max, p) => p.lat > max.lat ? p : max)`. -/
noncomputable def northernmost (pts : List Coordinate) : Option Coordinate :=
  reduce1 (fun mx p => if p.lat > mx.lat then p else mx) pts

/-- `capturedPoints.reduce((min, p) => p.lat < min.lat ? p : min)`. -/
noncomputable def southernmost (pts : List Coordinate) : Option Coordinate :=
  reduce1 (fun mn p => if p.lat < mn.lat then p else mn) pts

/-- `capturedPoints.reduce((max, p) => p.lng > max.lng ? p : max)`. -/
noncomputable def easternmost (pts : List Coordinate) : Option Coordinate :=
  reduce1 (fun mx p => if p.lng > mx.lng then p else mx) pts

/-- `capturedPoints.reduce((min, p) => p.lng < min.lng ? p : min)`. -/
noncomputable def westernmost (pts : List Coordinate) : Option Coordinate :=
  reduce1 (fun mn p => if p.lng < mn.lng then p else mn) pts

/-- Specification-side predicate: `r` is the first element of `pts`
attaining the maximum of `key`, i.e. everything before it is strictly
smaller and nothing after it is larger. -/
def firstWithMax (key : Coordinate → ℝ) (pts : List Coordinate) (r : Coordinate) : Prop :=
  ∃ pre post, pts = pre ++ r :: post ∧
    (∀ p ∈ pre, key p < key r) ∧ (∀ p ∈ post, key p ≤ key r)

/-- Specification-side predicate: `r` is the first element of `pts`
attaining the minimum of `key`. -/
def firstWithMin (key : Coordinate → ℝ) (pts : List Coordinate) (r : Coordinate) : Prop :=
  ∃ pre post, pts = pre ++ r :: post ∧
    (∀ p ∈ pre, key r < key p) ∧ (∀ p ∈ post, key r ≤ key p)

/-- One `content += ...` piece of the text report built by
`exportCoordinates`; numeric payloads are kept unformatted, since
`toFixed(6)` formatting is presentation-only. -/
inductive ReportLine where
  | header
  | totalPoints (n : ℕ)
  | pointEntry (idx : ℕ) (lat lng : ℝ)
  | separator
  | extremesHeader
  | extremeNorth (lat lng : ℝ)
  | extremeSouth (lat lng : ℝ)
  | extremeEast (lat lng : ℝ)
  | extremeWest (lat lng : ℝ)
  | restrictionEntry (idx : ℕ) (points : List Coordinate)
  | noRestrictions

/-- The report content assembled by `exportCoordinates` for a non-empty
captured-point list: title, total count, one entry per point, the
separator-delimited extremes section with the four `reduce`-selected
extreme points.  (The empty case is unreachable: the caller returns
before building content.) -/
noncomputable def exportContent : List Coordinate → List ReportLine
  | [] => []
  | x :: xs =>
    let nm := xs.foldl (fun mx p => if p.lat > mx.lat then p else mx) x
    let sm := xs.foldl (fun mn p => if p.lat < mn.lat then p else mn) x
    let em := xs.foldl (fun mx p => if p.lng > mx.lng then p else mx) x
    let wm := xs.foldl (fun mn p => if p.lng < mn.lng then p else mn) x
    [ReportLine.header, ReportLine.totalPoints (x :: xs).length] ++
    ((x :: xs).enum.map fun ip => ReportLine.pointEntry (ip.1 + 1) ip.2.lat ip.2.lng) ++
    [ReportLine.separator, ReportLine.extremesHeader, ReportLine.separator,
     ReportLine.extremeNorth nm.lat nm.lng, ReportLine.extremeSouth sm.lat sm.lng,
     ReportLine.extremeEast em.lat em.lng, ReportLine.extremeWest wm.lat wm.lng]

/-- `exportCoordinates` from `App.jsx`: returns without producing a report
when `capturedPoints.length === 0`; `restrictions` is the surrounding
component state, passed explicitly here because the closure has it in
scope (the body never reads it). -/
noncomputable def exportCoordinates (capturedPoints : List Coordinate)
    (restrictions : List (List Coordinate)) : Option (List ReportLine) :=
  if capturedPoints.length = 0 then none
  else some (exportContent capturedPoints)

/-- Modelled from the spec: `PointInPolygon.contains` is described in the
spec but absent from `src/` (only `App.jsx` is in the repository).
Ray-casting over `(lat, lng)` treated as planar `(y, x)`: for each vertex
`i` with previous vertex `j` (wrapping), toggle `inside` when the
horizontal ray at the point's latitude crosses the edge. -/
noncomputable def contains (point : Coordinate) (ring : List Coordinate) : Bool :=
  let n := ring.length
  (List.range n).foldl
    (fun inside i =>
      let vi := ring.getD i default
      let vj := ring.getD ((i + n - 1) % n) default
      if (decide (vi.lat > point.lat) != decide (vj.lat > point.lat)) &&
          decide (point.lng <
            (vj.lng - vi.lng) * (point.lat - vi.lat) / (vj.lat - vi.lat) + vi.lng)
      then !inside else inside)
    false

/-- Modelled from the spec: `GridSampler.generateGrid` is described in the
spec but absent from `src/`.  Empty for a degenerate boundary; otherwise a
bounding-box lattice (latitude step `stepMeters / 111320` degrees, per-row
longitude step compensated by `cos(latitude)`), filtered to the points
inside the boundary and outside every restriction ring. -/
noncomputable def generateGrid (boundary : List Coordinate)
    (restrictions : List (List Coordinate)) (stepMeters : ℝ) : List Coordinate :=
  if boundary.length < 3 then []
  else
    let minLat := (boundary.map Coordinate.lat).foldl min (boundary.headD default).lat
    let maxLat := (boundary.map Coordinate.lat).foldl max (boundary.headD default).lat
    let minLng := (boundary.map Coordinate.lng).foldl min (boundary.headD default).lng
    let maxLng := (boundary.map Coordinate.lng).foldl max (boundary.headD default).lng
    let latStep := stepMeters / 111320
    let rows := Nat.floor ((maxLat - minLat) / latStep) + 1
    let lattice := (List.range rows).map (fun i =>
      let lat := minLat + (i : ℝ) * latStep
      let lngStep := stepMeters / (111320 * Real.cos (lat * Real.pi / 180))
      let cols := Nat.floor ((maxLng - minLng) / lngStep) + 1
      (List.range cols).map fun j =>
        ({ lat := lat, lng := minLng + (j : ℝ) * lngStep } : Coordinate))
    lattice.flatten.filter fun p =>
      contains p boundary && restrictions.all fun r => !(contains p r)

/-- The component state of `App` relevant to capture and restrictions. -/
structure AppState where
  captureMode : Bool
  restrictionMode : Bool
  capturedPoints : List Coordinate
  restrictions : List (List Coordinate)
  currentRestriction : List Coordinate

/-- The `useState` initial values of `App`. -/
def initialState : AppState :=
  { captureMode := false, restrictionMode := false,
    capturedPoints := [], restrictions := [], currentRestriction := [] }

/-- The user interactions that update the state modelled here. -/
inductive Event where
  | mapClick (lat lng : ℝ) (id : ℕ)
  | removePoint (id : ℕ)
  | clearAllPoints
  | toggleCaptureMode
  | toggleRestrictionMode
  | clearRestrictions
  | removeRestriction (idx : ℕ)

/-- One state transition of `App`: the `useMapEvents` click handler, the
`removePoint` / `clearAllPoints` helpers, `toggleCaptureMode`,
`toggleRestrictionMode`, and the sidebar restriction buttons. -/
def step (s : AppState) : Event → AppState
  | .mapClick lat lng id =>
    if s.captureMode ∧ s.capturedPoints.length < 25 then
      { s with capturedPoints := s.capturedPoints ++ [⟨lat, lng, id⟩] }
    else if s.restrictionMode then
      { s with currentRestriction := s.currentRestriction ++ [⟨lat, lng, id⟩] }
    else s
  | .removePoint id =>
    { s with capturedPoints := s.capturedPoints.filter fun p => p.id ≠ id }
  | .clearAllPoints =>
    { s with capturedPoints := [], restrictions := [], currentRestriction := [] }
  | .toggleCaptureMode =>
    if s.captureMode then { s with captureMode := false }
    else { s with captureMode := true, restrictionMode := false }
  | .toggleRestrictionMode =>
    if s.restrictionMode then
      { s with
        restrictions :=
          if 3 ≤ s.currentRestriction.length then s.restrictions ++ [s.currentRestriction]
          else s.restrictions,
        currentRestriction := [],
        restrictionMode := false }
    else { s with restrictionMode := true, captureMode := false }
  | .clearRestrictions => { s with restrictions := [] }
  | .removeRestriction idx =>
    { s with restrictions := (s.restrictions.enum.filter fun x => x.1 ≠ idx).map (·.2) }

/-- A concrete app state used to exercise `toggleRestrictionMode`:
restriction mode on, with a one-point in-progress restriction. -/
def sampleRestrictionState : AppState :=
  { captureMode := false, restrictionMode := true, capturedPoints := [],
    restrictions := [], currentRestriction := [⟨0, 0, 0⟩] }

/-! ## Helper lemmas -/

lemma polygonArea_nonneg (points : List Coordinate) : 0 ≤ calculatePolygonArea points := by
  unfold calculatePolygonArea
  split
  · exact le_refl 0
  · exact abs_nonneg _

lemma polygonArea_degenerate (ring : List Coordinate) (h : ring.length < 3) :
    calculatePolygonArea ring = 0 := by
  unfold calculatePolygonArea
  rw [if_pos h]

lemma restrictionArea_foldl (restrictions : List (List Coordinate)) :
    ∀ a : ℝ, restrictions.foldl (fun acc points => acc + calculatePolygonArea points) a
      = a + (restrictions.map calculatePolygonArea).sum := by
  induction restrictions with
  | nil => intro a; simp
  | cons r rs ih =>
    intro a
    simp only [List.foldl_cons, List.map_cons, List.sum_cons]
    rw [ih]
    ring

lemma restrictionArea_eq_sum (restrictions : List (List Coordinate)) :
    restrictionArea restrictions = (restrictions.map calculatePolygonArea).sum := by
  unfold restrictionArea
  rw [restrictionArea_foldl]
  ring

/-! ## C1: net area -/

/-- C1: `totalArea` equals `max(0, polygonArea(boundary) − Σ polygonArea(restriction))`,
is never negative (even when the restriction sum exceeds the boundary area),
and with an empty restriction set equals the full boundary area. -/
theorem totalArea_spec (boundary : List Coordinate) (restrictions : List (List Coordinate)) :
    totalArea boundary restrictions =
      max 0 (calculatePolygonArea boundary - (restrictions.map calculatePolygonArea).sum) ∧
    0 ≤ totalArea boundary restrictions ∧
    totalArea boundary [] = calculatePolygonArea boundary := by
  refine ⟨?_, ?_, ?_⟩
  · unfold totalArea
    rw [restrictionArea_eq_sum]
  · exact le_max_left 0 _
  · unfold totalArea
    rw [restrictionArea_eq_sum]
    simp [max_eq_right (polygonArea_nonneg boundary)]

/-! ## C3: degenerate rings have zero area -/

/-- C3: `calculatePolygonArea` returns 0 for every ring of fewer than 3 points. -/
theorem polygonArea_short (ring : List Coordinate) (h : ring.length < 3) :
    calculatePolygonArea ring = 0 :=
  polygonArea_degenerate ring h

theorem polygonArea_short_witness :
    ([] : List Coordinate).length < 3 ∧ calculatePolygonArea [] = 0 :=
  ⟨by decide, polygonArea_short [] (by decide)⟩

/-! ## C5: haversine distance symmetry -/

/-- C5: `calculateDistance` is symmetric in its two coordinate arguments. -/
theorem calculateDistance_symm (lat1 lon1 lat2 lon2 : ℝ) :
    calculateDistance lat1 lon1 lat2 lon2 = calculateDistance lat2 lon2 lat1 lon1 := by
  have ha :
      Real.sin ((lat2 - lat1) * Real.pi / 180 / 2) * Real.sin ((lat2 - lat1) * Real.pi / 180 / 2) +
        Real.cos (lat1 * Real.pi / 180) * Real.cos (lat2 * Real.pi / 180) *
        Real.sin ((lon2 - lon1) * Real.pi / 180 / 2) * Real.sin ((lon2 - lon1) * Real.pi / 180 / 2)
      = Real.sin ((lat1 - lat2) * Real.pi / 180 / 2) * Real.sin ((lat1 - lat2) * Real.pi / 180 / 2) +
        Real.cos (lat2 * Real.pi / 180) * Real.cos (lat1 * Real.pi / 180) *
        Real.sin ((lon1 - lon2) * Real.pi / 180 / 2) * Real.sin ((lon1 - lon2) * Real.pi / 180 / 2) := by
    have e1 : (lat2 - lat1) * Real.pi / 180 / 2 = -((lat1 - lat2) * Real.pi / 180 / 2) := by ring
    have e2 : (lon2 - lon1) * Real.pi / 180 / 2 = -((lon1 - lon2) * Real.pi / 180 / 2) := by ring
    rw [e1, e2]
    simp only [Real.sin_neg]
    ring
  simp only [calculateDistance]
  rw [ha]

/-! ## C2: perimeter -/

lemma getD_zero_eq_headD (l : List Coordinate) (d : Coordinate) :
    l.getD 0 d = l.headD d := by
  cases l <;> rfl

lemma getD_pred_eq_getLastD (l : List Coordinate) (d : Coordinate) (h : l ≠ []) :
    l.getD (l.length - 1) d = l.getLastD d := by
  induction l with
  | nil => exact absurd rfl h
  | cons a t ih =>
    cases t with
    | nil => rfl
    | cons b t' =>
      have h1 : (a :: b :: t').length - 1 = (b :: t').length - 1 + 1 := by
        simp [List.length_cons]
      rw [h1, List.getD_cons_succ, ih (List.cons_ne_nil b t')]
      simp [List.getLastD_cons]

lemma sum_range_consec (f : Coordinate → Coordinate → ℝ) (d : Coordinate) :
    ∀ l : List Coordinate,
      (∑ i in Finset.range (l.length - 1), f (l.getD i d) (l.getD (i + 1) d))
        = consecSum f l := by
  intro l
  induction l with
  | nil => simp [consecSum]
  | cons a t ih =>
    cases t with
    | nil => simp [consecSum]
    | cons b t' =>
      have h1 : (a :: b :: t').length - 1 = (b :: t').length - 1 + 1 := by
        simp [List.length_cons]
      rw [h1, Finset.sum_range_succ']
      simp only [List.getD_cons_succ, List.getD_cons_zero] at ih ⊢
      rw [ih]
      rw [show consecSum f (a :: b :: t') = f a b + consecSum f (b :: t') from rfl]
      ring

/-- C2: `calculatePerimeter` is the sum of `calculateDistance` over
consecutive vertex pairs, plus the closing edge (last → first) exactly
when the ring has at least 3 points; in particular a ring of fewer than
2 points has perimeter 0 and a 2-point ring has exactly the single
segment length, not doubled. -/
theorem calculatePerimeter_spec (ring : List Coordinate) :
    (calculatePerimeter ring
      = consecSum (fun p q => calculateDistance p.lat p.lng q.lat q.lng) ring
        + (if 3 ≤ ring.length then
            calculateDistance (ring.getLastD default).lat (ring.getLastD default).lng
              (ring.headD default).lat (ring.headD default).lng
           else 0)) ∧
    calculatePerimeter ([] : List Coordinate) = 0 ∧
    (∀ p : Coordinate, calculatePerimeter [p] = 0) ∧
    (∀ p q : Coordinate,
      calculatePerimeter [p, q] = calculateDistance p.lat p.lng q.lat q.lng) := by
  refine ⟨?_, ?_, ?_, ?_⟩
  · unfold calculatePerimeter
    by_cases h : ring.length < 2
    · rw [if_pos h]
      match ring, h with
      | [], _ => simp [consecSum]
      | [p], _ => simp [consecSum]
    · rw [if_neg h]
      have hne : ring ≠ [] := by
        intro he
        exact h (by simp [he])
      have hsum := sum_range_consec
        (fun p q => calculateDistance p.lat p.lng q.lat q.lng) default ring
      simp only at hsum
      rw [hsum, getD_pred_eq_getLastD ring default hne, getD_zero_eq_headD]
  · simp [calculatePerimeter]
  · intro p; simp [calculatePerimeter]
  · intro p q
    simp [calculatePerimeter, Finset.sum_range_one]

/-! ## C4: area is invariant under ring reversal -/

lemma areaTerm_antisymm (p q : Coordinate) : areaTerm q p = -areaTerm p q := by
  unfold areaTerm
  ring

lemma consecSum_concat (f : Coordinate → Coordinate → ℝ) (d : Coordinate) :
    ∀ (xs : List Coordinate), xs ≠ [] → ∀ a : Coordinate,
      consecSum f (xs ++ [a]) = consecSum f xs + f (xs.getLastD d) a := by
  intro xs
  induction xs with
  | nil => intro h; exact absurd rfl h
  | cons x t ih =>
    intro _ a
    cases t with
    | nil => simp [consecSum]
    | cons y t' =>
      have h1 : (x :: y :: t') ++ [a] = x :: ((y :: t') ++ [a]) := by simp
      rw [h1]
      have h2 : consecSum f (x :: ((y :: t') ++ [a]))
          = f x y + consecSum f ((y :: t') ++ [a]) := by
        rfl
      rw [h2, ih (List.cons_ne_nil y t') a,
        show consecSum f (x :: y :: t') = f x y + consecSum f (y :: t') from rfl]
      simp [List.getLastD_cons]
      ring

lemma headD_reverse (l : List Coordinate) (d : Coordinate) :
    l.reverse.headD d = l.getLastD d := by
  rw [List.headD_eq_head?, List.getLastD_eq_getLast?, List.head?_reverse]

lemma getLastD_reverse (l : List Coordinate) (d : Coordinate) :
    l.reverse.getLastD d = l.headD d := by
  rw [List.headD_eq_head?, List.getLastD_eq_getLast?, List.getLast?_reverse]

lemma consecSum_reverse (f : Coordinate → Coordinate → ℝ)
    (hf : ∀ p q, f q p = -f p q) :
    ∀ l : List Coordinate, consecSum f l.reverse = -consecSum f l := by
  intro l
  induction l with
  | nil => simp [consecSum]
  | cons a t ih =>
    cases t with
    | nil => simp [consecSum]
    | cons b t' =>
      have h1 : (a :: b :: t').reverse = (b :: t').reverse ++ [a] := by simp
      have h2 : (b :: t').reverse ≠ [] := by simp
      rw [h1, consecSum_concat f default _ h2 a, ih,
        getLastD_reverse (b :: t') default,
        show (b :: t').headD default = b from rfl,
        hf a b,
        show consecSum f (a :: b :: t') = f a b + consecSum f (b :: t') from rfl]
      ring

lemma cyclicSum_eq (f : Coordinate → Coordinate → ℝ) (d : Coordinate)
    (l : List Coordinate) (h : l ≠ []) :
    (∑ i in Finset.range l.length, f (l.getD i d) (l.getD ((i + 1) % l.length) d))
      = consecSum f l + f (l.getLastD d) (l.headD d) := by
  obtain ⟨m, hm⟩ : ∃ m, l.length = m + 1 :=
    ⟨l.length - 1, (Nat.succ_pred_eq_of_pos (List.length_pos.mpr h)).symm⟩
  have hm' : m = l.length - 1 := by omega
  rw [hm, Finset.sum_range_succ, Nat.mod_self]
  have hmod : ∀ i ∈ Finset.range m,
      f (l.getD i d) (l.getD ((i + 1) % (m + 1)) d)
        = f (l.getD i d) (l.getD (i + 1) d) := by
    intro i hi
    rw [Nat.mod_eq_of_lt (by simpa using Nat.succ_lt_succ (Finset.mem_range.mp hi))]
  rw [Finset.sum_congr rfl hmod, hm', sum_range_consec f d l,
    getD_pred_eq_getLastD l d h, getD_zero_eq_headD l d]

/-- C4: `calculatePolygonArea` is invariant under reversing the ring's
vertex order (the cyclic edge sum negates and the final absolute value
erases the sign). -/
theorem polygonArea_reverse (ring : List Coordinate) :
    calculatePolygonArea ring.reverse = calculatePolygonArea ring := by
  by_cases h3 : ring.length < 3
  · rw [polygonArea_degenerate ring.reverse (by simpa using h3), polygonArea_degenerate ring h3]
  · have hne : ring ≠ [] := by
      intro he
      exact h3 (by simp [he])
    have hner : ring.reverse ≠ [] := by simpa using hne
    have hrev : (∑ i in Finset.range ring.reverse.length,
        areaTerm (ring.reverse.getD i default)
          (ring.reverse.getD ((i + 1) % ring.reverse.length) default))
        = -(∑ i in Finset.range ring.length,
            areaTerm (ring.getD i default) (ring.getD ((i + 1) % ring.length) default)) := by
      rw [cyclicSum_eq areaTerm default ring.reverse hner,
        cyclicSum_eq areaTerm default ring hne,
        consecSum_reverse areaTerm areaTerm_antisymm ring,
        headD_reverse ring default, getLastD_reverse ring default,
        areaTerm_antisymm (ring.getLastD default) (ring.headD default)]
      ring
    unfold calculatePolygonArea
    rw [if_neg (by simpa using h3), if_neg h3, hrev]
    rw [neg_mul, neg_mul, neg_div, abs_neg]

/-! ## C6: extreme points, first-encountered-wins -/

lemma key_le_foldlMax (key : Coordinate → ℝ) :
    ∀ (xs : List Coordinate) (x : Coordinate),
      key x ≤ key (xs.foldl (fun mx p => if key p > key mx then p else mx) x) := by
  intro xs
  induction xs with
  | nil => intro x; exact le_refl _
  | cons y ys ih =>
    intro x
    simp only [List.foldl_cons]
    by_cases h : key y > key x
    · rw [if_pos h]
      exact le_trans (le_of_lt h) (ih y)
    · rw [if_neg h]
      exact ih x

lemma foldlMax_first (key : Coordinate → ℝ) :
    ∀ (xs : List Coordinate) (x : Coordinate),
      firstWithMax key (x :: xs)
        (xs.foldl (fun mx p => if key p > key mx then p else mx) x) := by
  intro xs
  induction xs with
  | nil =>
    intro x
    exact ⟨[], [], rfl, by simp, by simp⟩
  | cons y ys ih =>
    intro x
    simp only [List.foldl_cons]
    by_cases h : key y > key x
    · rw [if_pos h]
      obtain ⟨pre, post, hsplit, hpre, hpost⟩ := ih y
      refine ⟨x :: pre, post, ?_, ?_, hpost⟩
      · rw [List.cons_append, ← hsplit]
      · intro p hp
        rcases List.mem_cons.mp hp with h1 | h1
        · subst h1
          exact lt_of_lt_of_le h (key_le_foldlMax key ys y)
        · exact hpre p h1
    · rw [if_neg h]
      obtain ⟨pre, post, hsplit, hpre, hpost⟩ := ih x
      cases pre with
      | nil =>
        simp only [List.nil_append, List.cons.injEq] at hsplit
        obtain ⟨h1, h2⟩ := hsplit
        refine ⟨[], y :: ys, ?_, by simp, ?_⟩
        · simp only [List.nil_append]
          rw [← h1]
        · intro p hp
          rcases List.mem_cons.mp hp with hpy | hpy
          · subst hpy
            rw [← h1]
            exact le_of_not_lt h
          · exact hpost p (h2 ▸ hpy)
      | cons a pre' =>
        simp only [List.cons_append, List.cons.injEq] at hsplit
        obtain ⟨hax, hys⟩ := hsplit
        refine ⟨x :: y :: pre', post, ?_, ?_, hpost⟩
        · simp only [List.cons_append, List.cons.injEq, true_and]
          exact hys
        · intro p hp
          have har : key a < key (List.foldl (fun mx p => if key p > key mx then p else mx) x ys) :=
            hpre a (List.mem_cons_self a pre')
          rcases List.mem_cons.mp hp with h1 | h1
          · subst h1
            exact hax ▸ har
          · rcases List.mem_cons.mp h1 with h2 | h2
            · subst h2
              exact lt_of_le_of_lt (le_of_not_lt h) (hax ▸ har)
            · exact hpre p (List.mem_cons_of_mem a h2)

lemma foldlMin_key_le (key : Coordinate → ℝ) :
    ∀ (xs : List Coordinate) (x : Coordinate),
      key (xs.foldl (fun mn p => if key p < key mn then p else mn) x) ≤ key x := by
  intro xs
  induction xs with
  | nil => intro x; exact le_refl _
  | cons y ys ih =>
    intro x
    simp only [List.foldl_cons]
    by_cases h : key y < key x
    · rw [if_pos h]
      exact le_trans (ih y) (le_of_lt h)
    · rw [if_neg h]
      exact ih x

lemma foldlMin_first (key : Coordinate → ℝ) :
    ∀ (xs : List Coordinate) (x : Coordinate),
      firstWithMin key (x :: xs)
        (xs.foldl (fun mn p => if key p < key mn then p else mn) x) := by
  intro xs
  induction xs with
  | nil =>
    intro x
    exact ⟨[], [], rfl, by simp, by simp⟩
  | cons y ys ih =>
    intro x
    simp only [List.foldl_cons]
    by_cases h : key y < key x
    · rw [if_pos h]
      obtain ⟨pre, post, hsplit, hpre, hpost⟩ := ih y
      refine ⟨x :: pre, post, ?_, ?_, hpost⟩
      · rw [List.cons_append, ← hsplit]
      · intro p hp
        rcases List.mem_cons.mp hp with h1 | h1
        · subst h1
          exact lt_of_le_of_lt (foldlMin_key_le key ys y) h
        · exact hpre p h1
    · rw [if_neg h]
      obtain ⟨pre, post, hsplit, hpre, hpost⟩ := ih x
      cases pre with
      | nil =>
        simp only [List.nil_append, List.cons.injEq] at hsplit
        obtain ⟨h1, h2⟩ := hsplit
        refine ⟨[], y :: ys, ?_, by simp, ?_⟩
        · simp only [List.nil_append]
          rw [← h1]
        · intro p hp
          rcases List.mem_cons.mp hp with hpy | hpy
          · subst hpy
            rw [← h1]
            exact le_of_not_lt h
          · exact hpost p (h2 ▸ hpy)
      | cons a pre' =>
        simp only [List.cons_append, List.cons.injEq] at hsplit
        obtain ⟨hax, hys⟩ := hsplit
        refine ⟨x :: y :: pre', post, ?_, ?_, hpost⟩
        · simp only [List.cons_append, List.cons.injEq, true_and]
          exact hys
        · intro p hp
          have har : key (List.foldl (fun mn p => if key p < key mn then p else mn) x ys) < key a :=
            hpre a (List.mem_cons_self a pre')
          rcases List.mem_cons.mp hp with h1 | h1
          · subst h1
            exact hax ▸ har
          · rcases List.mem_cons.mp h1 with h2 | h2
            · subst h2
              exact lt_of_lt_of_le (hax ▸ har) (le_of_not_lt h)
            · exact hpre p (List.mem_cons_of_mem a h2)

/-- C6: each of the four extreme vertices reported by `exportCoordinates`
is selected by simple lat/lng comparison with first-encountered-wins tie
resolution: every vertex before the reported one is strictly less extreme,
and no vertex after it is more extreme. -/
theorem extremes_first_wins (pts : List Coordinate) (h : pts ≠ []) :
    (∃ r, northernmost pts = some r ∧ firstWithMax Coordinate.lat pts r) ∧
    (∃ r, southernmost pts = some r ∧ firstWithMin Coordinate.lat pts r) ∧
    (∃ r, easternmost pts = some r ∧ firstWithMax Coordinate.lng pts r) ∧
    (∃ r, westernmost pts = some r ∧ firstWithMin Coordinate.lng pts r) := by
  match pts, h with
  | x :: xs, _ =>
    exact ⟨⟨_, rfl, foldlMax_first Coordinate.lat xs x⟩,
      ⟨_, rfl, foldlMin_first Coordinate.lat xs x⟩,
      ⟨_, rfl, foldlMax_first Coordinate.lng xs x⟩,
      ⟨_, rfl, foldlMin_first Coordinate.lng xs x⟩⟩

theorem extremes_first_wins_witness :
    ([(⟨0, 0, 0⟩ : Coordinate), ⟨0, 1, 1⟩] ≠ []) ∧
    ((∃ r, northernmost [(⟨0, 0, 0⟩ : Coordinate), ⟨0, 1, 1⟩] = some r ∧
        firstWithMax Coordinate.lat [⟨0, 0, 0⟩, ⟨0, 1, 1⟩] r) ∧
     (∃ r, southernmost [(⟨0, 0, 0⟩ : Coordinate), ⟨0, 1, 1⟩] = some r ∧
        firstWithMin Coordinate.lat [⟨0, 0, 0⟩, ⟨0, 1, 1⟩] r) ∧
     (∃ r, easternmost [(⟨0, 0, 0⟩ : Coordinate), ⟨0, 1, 1⟩] = some r ∧
        firstWithMax Coordinate.lng [⟨0, 0, 0⟩, ⟨0, 1, 1⟩] r) ∧
     (∃ r, westernmost [(⟨0, 0, 0⟩ : Coordinate), ⟨0, 1, 1⟩] = some r ∧
        firstWithMin Coordinate.lng [⟨0, 0, 0⟩, ⟨0, 1, 1⟩] r)) :=
  ⟨List.cons_ne_nil _ _, extremes_first_wins _ (List.cons_ne_nil _ _)⟩

/-! ## C7: the text report and restrictions -/

lemma noRestrictions_not_mem (pts : List Coordinate) :
    ReportLine.noRestrictions ∉ exportContent pts := by
  cases pts with
  | nil => simp [exportContent]
  | cons x xs => simp [exportContent]

lemma restrictionEntry_not_mem (pts : List Coordinate) (i : ℕ) (ps : List Coordinate) :
    ReportLine.restrictionEntry i ps ∉ exportContent pts := by
  cases pts with
  | nil => simp [exportContent]
  | cons x xs => simp [exportContent]

/-- C7 counterexample: with one captured point and an empty restriction
set, a report is produced but it contains no "no restrictions" line. -/
theorem export_noRestrictions_line_missing :
    exportCoordinates [({ lat := 1, lng := 2 } : Coordinate)] [] =
      some (exportContent [{ lat := 1, lng := 2 }]) ∧
    ReportLine.noRestrictions ∉ exportContent [({ lat := 1, lng := 2 } : Coordinate)] :=
  ⟨rfl, noRestrictions_not_mem _⟩

/-- C7 amended: the text report is independent of the restriction set and
contains neither per-restriction entries nor a "no restrictions" line. -/
theorem export_restrictions_ignored (pts : List Coordinate)
    (rs : List (List Coordinate)) :
    exportCoordinates pts rs = exportCoordinates pts [] ∧
    ReportLine.noRestrictions ∉ exportContent pts ∧
    ∀ (i : ℕ) (ps : List Coordinate), ReportLine.restrictionEntry i ps ∉ exportContent pts :=
  ⟨rfl, noRestrictions_not_mem pts, fun i ps => restrictionEntry_not_mem pts i ps⟩

/-! ## C8: every grid point is inside the boundary and outside restrictions -/

/-- C8: every coordinate returned by `generateGrid` individually satisfies
`contains(p, boundary)` and is contained in no restriction ring
(spec-modelled: `generateGrid` and `contains` are absent from `src/`). -/
theorem generateGrid_inside (boundary : List Coordinate)
    (restrictions : List (List Coordinate)) (stepMeters : ℝ) (h : 0 < stepMeters) :
    ((generateGrid boundary restrictions stepMeters).all
      (fun p => contains p boundary && restrictions.all fun r => !(contains p r))) = true := by
  unfold generateGrid
  split
  · rfl
  · apply List.all_eq_true.mpr
    intro x hx
    exact (List.mem_filter.mp hx).2

theorem generateGrid_inside_witness :
    (0 : ℝ) < 50 ∧
    ((generateGrid [(⟨0, 0, 0⟩ : Coordinate), ⟨0, 1, 1⟩, ⟨1, 1, 2⟩, ⟨1, 0, 3⟩] [] 50).all
      (fun p => contains p [(⟨0, 0, 0⟩ : Coordinate), ⟨0, 1, 1⟩, ⟨1, 1, 2⟩, ⟨1, 0, 3⟩] &&
        ([] : List (List Coordinate)).all fun r => !(contains p r))) = true :=
  ⟨by norm_num, generateGrid_inside _ _ _ (by norm_num)⟩

/-! ## C9: the captured boundary never exceeds 25 vertices -/

lemma step_length_le (s : AppState) (e : Event) (h : s.capturedPoints.length ≤ 25) :
    (step s e).capturedPoints.length ≤ 25 := by
  cases e with
  | mapClick lat lng id =>
    simp only [step]
    split
    · rename_i hc
      simp only [List.length_append, List.length_singleton]
      omega
    · split
      · exact h
      · exact h
  | removePoint id =>
    simp only [step]
    exact le_trans (List.length_filter_le _ _) h
  | clearAllPoints => simp [step]
  | toggleCaptureMode =>
    simp only [step]
    split
    · exact h
    · exact h
  | toggleRestrictionMode =>
    simp only [step]
    split
    · exact h
    · exact h
  | clearRestrictions => exact h
  | removeRestriction idx => exact h

lemma foldl_step_length_le :
    ∀ (events : List Event) (s : AppState), s.capturedPoints.length ≤ 25 →
      ((events.foldl step s).capturedPoints).length ≤ 25 := by
  intro events
  induction events with
  | nil => intro s h; exact h
  | cons e es ih => intro s h; exact ih (step s e) (step_length_le s e h)

/-- C9: a map click appends a point only when the captured list has fewer
than 25 entries (and otherwise leaves it unchanged), so along every event
sequence from the initial state the captured boundary never exceeds 25
vertices. -/
theorem capturedPoints_never_exceed_25 :
    (∀ (s : AppState) (lat lng : ℝ) (id : ℕ),
      (step s (Event.mapClick lat lng id)).capturedPoints =
        if s.captureMode ∧ s.capturedPoints.length < 25
        then s.capturedPoints ++ [⟨lat, lng, id⟩] else s.capturedPoints) ∧
    (∀ events : List Event, ((events.foldl step initialState).capturedPoints).length ≤ 25) := by
  constructor
  · intro s lat lng id
    simp only [step]
    split
    · rfl
    · split
      · rfl
      · rfl
  · intro events
    exact foldl_step_length_le events initialState (by simp [initialState])

/-! ## C10: only rings of at least 3 vertices are saved as restrictions -/

/-- C10: ending restriction mode saves the in-progress restriction exactly
when it has at least 3 vertices (otherwise the saved set is unchanged),
and in either case resets the in-progress restriction to empty and leaves
restriction mode off. -/
theorem toggleRestriction_saves_valid (s : AppState) (h : s.restrictionMode = true) :
    (step s Event.toggleRestrictionMode).currentRestriction = [] ∧
    (step s Event.toggleRestrictionMode).restrictionMode = false ∧
    (step s Event.toggleRestrictionMode).restrictions =
      (if 3 ≤ s.currentRestriction.length then s.restrictions ++ [s.currentRestriction]
       else s.restrictions) := by
  simp [step, h]

theorem toggleRestriction_saves_valid_witness :
    sampleRestrictionState.restrictionMode = true ∧
    ((step sampleRestrictionState Event.toggleRestrictionMode).currentRestriction = [] ∧
     (step sampleRestrictionState Event.toggleRestrictionMode).restrictionMode = false ∧
     (step sampleRestrictionState Event.toggleRestrictionMode).restrictions =
       (if 3 ≤ sampleRestrictionState.currentRestriction.length
        then sampleRestrictionState.restrictions ++ [sampleRestrictionState.currentRestriction]
        else sampleRestrictionState.restrictions)) :=
  ⟨rfl, toggleRestriction_saves_valid sampleRestrictionState rfl⟩
